import Mathlib

/-!
Verification of the job/task queue subsystem of the grok-proofreader web app.

The embedding translates the two source modules:
  app.py         : job registry (JOBS), submission (proofread), polling
                   (queue_status), aggregate download (download_results),
                   background pipeline (process_job), cleanup (cleanup_job);
  proofreader.py : report packaging names (save_reports) and the shape of the
                   transformation result.

External effects (document extraction, the remote transformation call, disk
writes) enter the model as explicit outcome parameters, so the pipeline is a
pure function of the submitted names, the per-file outcomes, the packaging
outcome, and the initial job record.
-/

namespace GrokApp

/-- Task status values used in the per-file entries of a job (strings in the source). -/
inductive TaskStatus
  | queued
  | processing
  | complete
  | error
  deriving DecidableEq

/-- Job status values used in the job records (strings in the source). -/
inductive JobStatus
  | queued
  | processing
  | complete
  | failed
  deriving DecidableEq

/-- One correction item of the structured transformation result. -/
structure Correction where
  original : String
  suggested : String
  reason : String
  deriving DecidableEq

/-- Structured result returned by the transformation call (summary plus corrections). -/
structure GrokData where
  summary : String
  corrections : List Correction
  deriving DecidableEq

/-- One entry of the files list of a job, mirroring the dict built in proofread. -/
structure FileEntry where
  id : Nat
  name : String
  status : TaskStatus
  download_url : Option String
  report_path : Option String
  deriving DecidableEq

/-- A job record, mirroring the dict stored in the JOBS registry. -/
structure Job where
  status : JobStatus
  files : List FileEntry
  zip_path : Option String
  error : Option String
  role : String
  deriving DecidableEq

instance {ε α : Type} [DecidableEq ε] [DecidableEq α] : DecidableEq (Except ε α) := fun x y =>
  match x, y with
  | .error a, .error b =>
      if h : a = b then .isTrue (by rw [h]) else .isFalse fun hc => h (by cases hc; rfl)
  | .error _, .ok _ => .isFalse fun hc => Except.noConfusion hc
  | .ok _, .error _ => .isFalse fun hc => Except.noConfusion hc
  | .ok a, .ok b =>
      if h : a = b then .isTrue (by rw [h]) else .isFalse fun hc => h (by cases hc; rfl)

/-- Python truthiness of an optional string: None and the empty string are falsy. -/
def truthyStr : Option String → Bool
  | none => false
  | some s => !(s == "")

/-- The keys of the ROLES table of app.py (the prompt texts are opaque to the core). -/
def ROLES : List String := ["legal", "academic", "business", "creative", "mentor"]

/-- Python test name.lower().endswith(".docx"), computed on the character list. -/
def isDocx (name : String) : Bool :=
  let low := name.toList.map Char.toLower
  low.drop (low.length - 5) == ['.', 'd', 'o', 'c', 'x']

/-- Python pathlib stem: the file name with its final suffix removed. -/
def stem (name : String) : String :=
  let cs := name.toList
  match (cs.reverse).findIdx? (fun c => c == '.') with
  | none => name
  | some i =>
    if i == cs.length - 1 then name
    else String.mk (cs.take (cs.length - i - 1))

/-- Root of the working directory tree used by the app. -/
def tempRoot : String := "/tmp/proofreader"

/-- Per-job working directory. -/
def jobDir (jobId : String) : String := tempRoot ++ "/" ++ jobId

/-- Per-job output directory holding every produced report. -/
def outputDir (jobId : String) : String := jobDir jobId ++ "/output"

/-- Path of the packaged archive of a job. -/
def zipPath (jobId : String) : String := jobDir jobId ++ "/proofread_results.zip"

/-- Download URL recorded on a completed file entry. -/
def downloadUrl (jobId : String) (fid : Nat) : String :=
  "/queue/" ++ jobId ++ "/files/" ++ toString fid

/-- Name of the per-file report that save_reports writes for one result payload. -/
def perFileName (filename : String) : String := stem filename ++ "_PROOFREAD.docx"

/-- Modelled from the spec: save_single_report is imported by app.py but its
definition is not among the available sources; per the spec it persists the
per-file artifact of one result into the output directory of the job and
returns its path. It is modelled as writing the per-file report under the same
name that save_reports uses for per-file reports, so repeated packaging
overwrites rather than duplicates. -/
def save_single_report_path (jobId : String) (filename : String) : String :=
  outputDir jobId ++ "/" ++ perFileName filename

/-- Serialized view of one file entry, as returned by the HTTP layer. -/
structure SerFile where
  id : Nat
  name : String
  status : TaskStatus
  download_url : Option String
  deriving DecidableEq

/-- serialize_job_files of app.py. -/
def serialize_job_files (job : Job) : List SerFile :=
  job.files.map fun fi => ⟨fi.id, fi.name, fi.status, fi.download_url⟩

/-- Registry lookup JOBS.get(job_id). -/
def lookupJob (jobs : List (String × Job)) (jobId : String) : Option Job :=
  (jobs.find? fun p => p.1 == jobId).map (·.2)

/-- Response body of the submission endpoint. -/
structure ProofreadResponse where
  job_id : String
  status : JobStatus
  files : List SerFile
  deriving DecidableEq

/-- One freshly created file entry of proofread. -/
def mkFileEntry (idx : Nat) (name : String) : FileEntry :=
  ⟨idx, name, .queued, none, none⟩

/-- The file entries proofread builds by enumerating the accepted paths. -/
def docxEntries (paths : List String) : List FileEntry :=
  paths.enum.map fun p => mkFileEntry p.1 p.2

/-- The proofread endpoint of app.py: validates the role and the API key,
keeps only .docx uploads, rejects an upload set with no .docx file, and
otherwise registers a fresh queued job and returns its initial status list.
The generated uuid is passed in as jobId, and the registry is threaded
explicitly. -/
def proofread (jobs : List (String × Job)) (jobId : String) (role : String)
    (apiKey : Option String) (files : List String) :
    List (String × Job) × Except (Nat × String) ProofreadResponse :=
  if ROLES.contains role then
    if truthyStr apiKey then
      let docx_paths := files.filter isDocx
      if docx_paths.isEmpty then
        (jobs, .error (400, "No .docx files uploaded"))
      else
        let job : Job := ⟨.queued, docxEntries docx_paths, none, none, role⟩
        ((jobId, job) :: jobs, .ok ⟨jobId, .queued, serialize_job_files job⟩)
    else
      (jobs, .error (500, "API key not configured"))
  else
    (jobs, .error (400, "Invalid role"))

/-- Response body of the status-poll endpoint. -/
structure QueueStatus where
  job_id : String
  status : JobStatus
  files : List SerFile
  download_ready : Bool
  error : Option String
  deriving DecidableEq

/-- The queue_status endpoint of app.py: not-found for an unknown id, else the
current snapshot of the job. -/
def queue_status (jobs : List (String × Job)) (jobId : String) :
    Except (Nat × String) QueueStatus :=
  match lookupJob jobs jobId with
  | none => .error (404, "Job not found")
  | some job =>
      .ok ⟨jobId, job.status, serialize_job_files job, truthyStr job.zip_path, job.error⟩

/-- Outcome of the aggregate download endpoint. -/
inductive DownloadOutcome
  | httpError (code : Nat) (msg : String)
  | fileResponse (path : String) (filename : String)
  deriving DecidableEq

/-- The download_results endpoint of app.py: 404 for an unknown id; the archive
is returned only when the job status equals complete and the zip path is
truthy, otherwise a 400 not-ready error. -/
def download_results (jobs : List (String × Job)) (jobId : String) : DownloadOutcome :=
  match lookupJob jobs jobId with
  | none => .httpError 404 "Job not found"
  | some job =>
      if job.status = .complete ∧ truthyStr job.zip_path = true then
        .fileResponse (job.zip_path.getD "") (jobId ++ "_proofread_results.zip")
      else
        .httpError 400 "Job is still processing"

/-- Registry plus the set of per-job directories present on disk. -/
structure AppState where
  jobs : List (String × Job)
  disk : List String
  deriving DecidableEq

/-- The cleanup_job function of app.py: pops the registry entry, removes the
job directory when present, and reports whether either existed. -/
def cleanup_job (s : AppState) (jobId : String) : AppState × Bool :=
  let job_present := (lookupJob s.jobs jobId).isSome
  let jobs2 := s.jobs.filter fun p => decide (p.1 ≠ jobId)
  let dir_exists := decide (jobId ∈ s.disk)
  let disk2 := if jobId ∈ s.disk then s.disk.filter fun d => decide (d ≠ jobId) else s.disk
  (⟨jobs2, disk2⟩, job_present || dir_exists)

/-- Outcome of processing one file inside the try block of process_job:
`ok` is a full success (extracted text length and parsed transformation data);
`okThenSaveFail` succeeds through the result append but the per-file report
write raises; `fail` raises before the append (extraction, transport, or
malformed-response error). The string is the Python str of the exception. -/
inductive FileOutcome
  | ok (char_count : Nat) (data : GrokData)
  | okThenSaveFail (char_count : Nat) (data : GrokData) (e : String)
  | fail (e : String)
  deriving DecidableEq

/-- The error string an outcome records on the job, if any. -/
def outcomeErr : FileOutcome → Option String
  | .ok _ _ => none
  | .okThenSaveFail _ _ e => some e
  | .fail e => some e

/-- Terminal task status produced by an outcome. -/
def terminalOf : FileOutcome → TaskStatus
  | .ok _ _ => .complete
  | .okThenSaveFail _ _ _ => .error
  | .fail _ => .error

/-- One result payload appended to the results list of process_job. -/
structure ResultPayload where
  filename : String
  char_count : Nat
  data : GrokData
  deriving DecidableEq

/-- The synthesized fallback payload appended when a file fails. -/
def fallbackPayload (name e : String) : ResultPayload :=
  ⟨name, 0, ⟨"Processing failed: " ++ e, []⟩⟩

/-- The result payloads one file contributes, as appended by process_job. -/
def resultsOf (name : String) : FileOutcome → List ResultPayload
  | .ok c d => [⟨name, c, d⟩]
  | .okThenSaveFail c d e => [⟨name, c, d⟩, fallbackPayload name e]
  | .fail e => [fallbackPayload name e]

/-- Fallback entry used for an out-of-range list access; process_job only
indexes in range because proofread creates one entry per accepted path. -/
def defaultEntry : FileEntry := ⟨0, "", .queued, none, none⟩

/-- One iteration of the loop of process_job: mark the entry processing, then
either complete it with its report path and download URL, or mark it error and
record the exception text on the job, appending the corresponding payloads.
Returns the updated job, the appended payloads, and the status writes made. -/
def processFile (jobId : String) (idx : Nat) (name : String) (oc : FileOutcome)
    (job : Job) : Job × List ResultPayload × List (Nat × TaskStatus) :=
  let e0 := job.files.getD idx defaultEntry
  let e1 : FileEntry := { e0 with status := .processing, download_url := none, report_path := none }
  let job1 : Job := { job with files := job.files.set idx e1 }
  match oc with
  | .ok c d =>
      let e2 : FileEntry := { e1 with
        status := .complete,
        report_path := some (save_single_report_path jobId name),
        download_url := some (downloadUrl jobId e1.id) }
      ({ job1 with files := job1.files.set idx e2 },
       [⟨name, c, d⟩],
       [(idx, .processing), (idx, .complete)])
  | .okThenSaveFail c d e =>
      let e2 : FileEntry := { e1 with status := .error }
      ({ job1 with files := job1.files.set idx e2, error := some e },
       [⟨name, c, d⟩, fallbackPayload name e],
       [(idx, .processing), (idx, .error)])
  | .fail e =>
      let e2 : FileEntry := { e1 with status := .error }
      ({ job1 with files := job1.files.set idx e2, error := some e },
       [fallbackPayload name e],
       [(idx, .processing), (idx, .error)])

/-- The sequential loop of process_job over the indexed inputs. -/
def runFiles (jobId : String) (inputs : List (Nat × String × FileOutcome)) (job : Job) :
    Job × List ResultPayload × List (Nat × TaskStatus) :=
  match inputs with
  | [] => (job, [], [])
  | (idx, name, oc) :: rest =>
      let r1 := processFile jobId idx name oc job
      let r2 := runFiles jobId rest r1.1
      (r2.1, r1.2.1 ++ r2.2.1, r1.2.2 ++ r2.2.2)

/-- enumerate(docx_paths) zipped with the per-file outcomes, starting at k. -/
def enumFrom2 : Nat → List String → List FileOutcome → List (Nat × String × FileOutcome)
  | _, [], _ => []
  | _, _ :: _, [] => []
  | k, n :: ns, oc :: os => (k, n, oc) :: enumFrom2 (k + 1) ns os

/-- enumerate(docx_paths) zipped with the per-file outcomes. -/
def enumFiles (names : List String) (ocs : List FileOutcome) :
    List (Nat × String × FileOutcome) :=
  enumFrom2 0 names ocs

/-- Result of one run of process_job: the exception that escaped the worker
(if any), the final job record, the results list handed to packaging, and the
sequence of task status writes in program order. -/
structure ProcessResult where
  escaped : Option String
  job : Job
  results : List ResultPayload
  trace : List (Nat × TaskStatus)
  deriving DecidableEq

/-- The process_job worker of app.py: set the job processing, run every file in
upload order, then package. Packaging (save_reports plus the zip write) is not
guarded by any handler in the source: on packaging failure the exception
escapes and the lines recording the zip path and the terminal status never
run. On packaging success the zip path is recorded and the final status is
failed exactly when the recorded error string is truthy. -/
def process_job (jobId : String) (names : List String) (ocs : List FileOutcome)
    (packaging : Except String Unit) (job0 : Job) : ProcessResult :=
  let job1 : Job := { job0 with status := .processing }
  let r := runFiles jobId (enumFiles names ocs) job1
  match packaging with
  | .error e => ⟨some e, r.1, r.2.1, r.2.2⟩
  | .ok _ =>
      ⟨none,
       { r.1 with
         zip_path := some (zipPath jobId),
         status := if truthyStr r.1.error then .failed else .complete },
       r.2.1, r.2.2⟩

/-- Names of the aggregate report files written by save_reports. -/
def aggregateNames : List String := ["results.json", "summary.csv", "PROOFREADING_REPORT.docx"]

/-- File names written into the output directory by save_reports: the three
aggregate outputs plus one per-file report for every result payload. -/
def save_reports_names (results : List ResultPayload) : List String :=
  aggregateNames ++ results.map fun r => perFileName r.filename

/-- File names written by the save_single_report calls during the loop: one
for every file whose processing fully succeeded. -/
def singleSaveNames (inputs : List (Nat × String × FileOutcome)) : List String :=
  inputs.filterMap fun t =>
    match t.2.2 with
    | .ok _ _ => some (perFileName t.2.1)
    | _ => none

/-- The set of entries of the produced zip archive: every file present in the
output directory, one zip entry per distinct file name. -/
def archiveEntries (singleSaves : List String) (results : List ResultPayload) :
    Finset String :=
  (singleSaves ++ save_reports_names results).toFinset

/-- Archive entry set of one full pipeline run that reaches packaging. -/
def archiveOf (jobId : String) (names : List String) (ocs : List FileOutcome)
    (job0 : Job) : Finset String :=
  archiveEntries (singleSaveNames (enumFiles names ocs))
    ((process_job jobId names ocs (Except.ok ()) job0).results)

/-- job.get("error") folded over the loop: each failing file overwrites the
recorded error string. -/
def errFold (init : Option String) (ocs : List FileOutcome) : Option String :=
  ocs.foldl (fun a oc => match outcomeErr oc with | some e => some e | none => a) init

/-- The error string recorded on the job after a run that starts with no error. -/
def lastError (ocs : List FileOutcome) : Option String := errFold none ocs

/-- Status writes of one task extracted from a trace. -/
def statusWrites (trace : List (Nat × TaskStatus)) (idx : Nat) : List TaskStatus :=
  (trace.filter fun p => p.1 == idx).map fun p => p.2

/-- The per-task transition relation of the spec state machine. -/
def taskStep : TaskStatus → TaskStatus → Prop
  | .queued, .processing => True
  | .processing, .complete => True
  | .processing, .error => True
  | _, _ => False

namespace RefModel

/-!
Reference semantics for the interaction of process_job with cleanup_job.

In the source, process_job reads the job dict out of JOBS exactly once
(`job = JOBS.get(job_id)`) and every later mutation goes through that
captured Python object reference; it never touches JOBS again. cleanup_job
pops the key from JOBS but the popped object stays alive. This model makes
the aliasing explicit: the registry maps job ids to references and the heap
maps references to records, so a pipeline mutation is an update of the heap
at the captured reference. -/

/-- Registry of job ids to object references, plus the heap of live records. -/
structure Sys where
  registry : List (String × Nat)
  heap : List (Nat × Job)

/-- Registry lookup. -/
def rlookup (reg : List (String × Nat)) (j : String) : Option Nat :=
  (reg.find? fun p => p.1 == j).map (·.2)

/-- Heap lookup. -/
def hlookup (h : List (Nat × Job)) (r : Nat) : Option Job :=
  (h.find? fun p => p.1 == r).map (·.2)

/-- A poll of the status endpoint: resolve the id in the registry, then read
the record it references. Absent id means a 404 not-found response. -/
def poll (s : Sys) (j : String) : Option Job :=
  (rlookup s.registry j).bind (hlookup s.heap)

/-- One pipeline mutation through a captured reference: the record the
reference designates is updated in place, nothing else changes. -/
def heapMutate (s : Sys) (r : Nat) (f : Job → Job) : Sys :=
  { s with heap := s.heap.map fun p => if p.1 = r then (p.1, f p.2) else p }

/-- The registry effect of cleanup_job: JOBS.pop removes the key; the record
object itself stays on the heap. -/
def cleanupRegistry (s : Sys) (j : String) : Sys :=
  { s with registry := s.registry.filter fun p => p.1 != j }

/-- A whole suffix of the pipeline after cleanup: every remaining mutation is
applied through the captured reference. -/
def pipelineRun (s : Sys) (r : Nat) (muts : List (Job → Job)) : Sys :=
  muts.foldl (fun acc f => heapMutate acc r f) s

end RefModel

/-- A one-file queued job exactly as proofread registers it. -/
def cexJob : Job := ⟨.queued, [⟨0, "a.docx", .queued, none, none⟩], none, none, "academic"⟩

/-- Pipeline run in which the single file fails with an empty exception text. -/
def cexRunEmptyMsg : ProcessResult :=
  process_job "j1" ["a.docx"] [.fail ""] (Except.ok ()) cexJob

/-- Pipeline run in which the single file fails with a non-empty exception text. -/
def cexRunFail : ProcessResult :=
  process_job "j2" ["a.docx"] [.fail "boom"] (Except.ok ()) cexJob

/-- Pipeline run in which the file succeeds but packaging raises. -/
def cexRunPackFail : ProcessResult :=
  process_job "j1" ["a.docx"] [.ok 4 ⟨"fine", []⟩] (Except.error "boom") cexJob

/-- A three-file queued job exactly as proofread registers it. -/
def cexJob3 : Job :=
  ⟨.queued,
   [⟨0, "a.docx", .queued, none, none⟩, ⟨1, "b.docx", .queued, none, none⟩,
    ⟨2, "c.docx", .queued, none, none⟩],
   none, none, "academic"⟩

/-- Names of the three-file batch. -/
def cexNames3 : List String := ["a.docx", "b.docx", "c.docx"]

/-- Outcomes of the three-file batch: the second file fails. -/
def cexOcs3 : List FileOutcome :=
  [.ok 5 ⟨"s1", []⟩, .fail "boom", .ok 7 ⟨"s3", []⟩]

/-- Archive entry set of the three-file run whose second file fails. -/
def cexArchive3 : Finset String := archiveOf "j3" cexNames3 cexOcs3 cexJob3

/-- A minimal job record used in the reference-semantics state. -/
def wJob : Job := ⟨.queued, [], none, none, "academic"⟩

/-- A concrete two-job reference-semantics state. -/
def c1Sys : RefModel.Sys :=
  ⟨[("job1", 1), ("job2", 2)], [(1, cexJob), (2, wJob)]⟩

/-- Two concrete pipeline mutations of the kind process_job performs. -/
def c1Muts : List (Job → Job) :=
  [fun j => { j with status := .processing }, fun j => { j with error := some "x" }]

namespace RefModel

lemma heapMutate_registry (s : Sys) (r : Nat) (f : Job → Job) :
    (heapMutate s r f).registry = s.registry := rfl

lemma pipelineRun_registry (muts : List (Job → Job)) (s : Sys) (r : Nat) :
    (pipelineRun s r muts).registry = s.registry := by
  induction muts generalizing s with
  | nil => rfl
  | cons f rest ih => simpa [pipelineRun] using ih (heapMutate s r f)

lemma hlookup_map_ne (h : List (Nat × Job)) (r n : Nat) (f : Job → Job) (hne : n ≠ r) :
    hlookup (h.map fun p => if p.1 = r then (p.1, f p.2) else p) n = hlookup h n := by
  induction h with
  | nil => rfl
  | cons p t ih =>
      have hq1 : (if p.1 = r then (p.1, f p.2) else p).1 = p.1 := by
        by_cases hp : p.1 = r <;> simp [hp]
      unfold hlookup at ih ⊢
      simp only [List.map_cons, List.find?_cons, hq1]
      cases hpn : (p.1 == n) with
      | false => exact ih
      | true =>
          have hp1n : p.1 = n := by simpa using hpn
          have hpr : ¬ p.1 = r := by rw [hp1n]; exact hne
          simp [hpr]

lemma hlookup_pipelineRun_ne (muts : List (Job → Job)) (s : Sys) (r n : Nat)
    (hne : n ≠ r) : hlookup (pipelineRun s r muts).heap n = hlookup s.heap n := by
  induction muts generalizing s with
  | nil => rfl
  | cons f rest ih =>
      have h1 := hlookup_map_ne s.heap r n f hne
      simpa [pipelineRun, heapMutate] using (ih (heapMutate s r f)).trans h1

lemma rlookup_filter_self (reg : List (String × Nat)) (j : String) :
    rlookup (reg.filter fun p => p.1 != j) j = none := by
  unfold rlookup
  rw [List.find?_eq_none.mpr]
  · rfl
  · intro x hx
    have hmem := List.mem_filter.mp hx
    simpa using hmem.2

/-- Claim C1: once cleanup has removed the registry entry of a job, every
subsequent pipeline mutation, made through the object reference the pipeline
captured at its start, leaves the registry untouched (the record is never
recreated), changes no poll result of any job id, and a poll of the removed
job id keeps returning not-found. All functions involved are total, so no
mutation can crash. The freshness hypothesis says that no other registered
job aliases the captured record, which holds because every job gets its own
dict object. -/
theorem cleanup_detaches_pipeline (s : Sys) (jobId : String) (r : Nat)
    (muts : List (Job → Job))
    (h1 : rlookup s.registry jobId = some r)
    (h2 : ∀ p ∈ s.registry, p.1 ≠ jobId → p.2 ≠ r) :
    (pipelineRun (cleanupRegistry s jobId) r muts).registry =
      (cleanupRegistry s jobId).registry ∧
    poll (pipelineRun (cleanupRegistry s jobId) r muts) jobId = none ∧
    ∀ j, poll (pipelineRun (cleanupRegistry s jobId) r muts) j =
      poll (cleanupRegistry s jobId) j := by
  have hreg : (pipelineRun (cleanupRegistry s jobId) r muts).registry =
      (cleanupRegistry s jobId).registry := pipelineRun_registry muts _ r
  have hfresh : ∀ j n, rlookup (cleanupRegistry s jobId).registry j = some n → n ≠ r := by
    intro j n hl
    unfold cleanupRegistry rlookup at hl
    rcases hfind : (s.registry.filter fun p => p.1 != jobId).find? fun p => p.1 == j with
      _ | q
    · rw [hfind] at hl; simp at hl
    · rw [hfind] at hl
      simp at hl
      have hq := List.mem_of_find?_eq_some hfind
      have hmem := List.mem_filter.mp hq
      have hne : q.1 ≠ jobId := by simpa using hmem.2
      have := h2 q hmem.1 hne
      rw [← hl]
      exact this
  refine ⟨hreg, ?_, ?_⟩
  · unfold poll
    rw [hreg]
    have : rlookup (cleanupRegistry s jobId).registry jobId = none :=
      rlookup_filter_self s.registry jobId
    rw [this]
    rfl
  · intro j
    unfold poll
    rw [hreg]
    rcases hl : rlookup (cleanupRegistry s jobId).registry j with _ | n
    · rfl
    · exact hlookup_pipelineRun_ne muts (cleanupRegistry s jobId) r n (hfresh j n hl)

/-- Witness for claim C1 at a concrete two-job state: cleanup of job1 followed
by two pipeline mutations through its captured reference. -/
theorem cleanup_detaches_pipeline_witness :
    (rlookup c1Sys.registry "job1" = some 1 ∧
      ∀ p ∈ c1Sys.registry, p.1 ≠ "job1" → p.2 ≠ 1) ∧
    ((pipelineRun (cleanupRegistry c1Sys "job1") 1 c1Muts).registry =
        (cleanupRegistry c1Sys "job1").registry ∧
      poll (pipelineRun (cleanupRegistry c1Sys "job1") 1 c1Muts) "job1" = none ∧
      ∀ j, poll (pipelineRun (cleanupRegistry c1Sys "job1") 1 c1Muts) j =
        poll (cleanupRegistry c1Sys "job1") j) :=
  ⟨⟨by decide, by decide⟩,
   cleanup_detaches_pipeline c1Sys "job1" 1 c1Muts (by decide) (by decide)⟩

end RefModel

lemma lookupJob_filter_self (jobs : List (String × Job)) (jobId : String) :
    lookupJob (jobs.filter fun p => decide (p.1 ≠ jobId)) jobId = none := by
  unfold lookupJob
  rw [List.find?_eq_none.mpr]
  · rfl
  · intro x hx
    have hmem := List.mem_filter.mp hx
    simpa using hmem.2

/-- Claim C8: cleanup is idempotent. When the job is present, the first call
returns true; the immediately following second call returns false, because
both the registry entry and the on-disk directory are gone. Both calls are
total functions of the state, so neither raises. -/
theorem cleanup_idempotent (s : AppState) (jobId : String)
    (h : (lookupJob s.jobs jobId).isSome = true) :
    (cleanup_job s jobId).2 = true ∧
    (cleanup_job (cleanup_job s jobId).1 jobId).2 = false := by
  constructor
  · simp [cleanup_job, h]
  · have hjobs : lookupJob (cleanup_job s jobId).1.jobs jobId = none :=
      lookupJob_filter_self s.jobs jobId
    have hdisk : jobId ∉ (cleanup_job s jobId).1.disk := by
      show jobId ∉ (if jobId ∈ s.disk then s.disk.filter fun d => decide (d ≠ jobId) else s.disk)
      by_cases hd : jobId ∈ s.disk
      · rw [if_pos hd]
        intro hmem
        have := (List.mem_filter.mp hmem).2
        simp at this
      · rw [if_neg hd]
        exact hd
    show ((lookupJob ((cleanup_job s jobId).1.jobs) jobId).isSome ||
        decide (jobId ∈ (cleanup_job s jobId).1.disk)) = false
    rw [hjobs]
    simp [hdisk]

/-- Witness for claim C8 at a concrete state holding one registered job with
its directory on disk. -/
theorem cleanup_idempotent_witness :
    (lookupJob (AppState.mk [("j1", cexJob)] ["j1"]).jobs "j1").isSome = true ∧
    ((cleanup_job (AppState.mk [("j1", cexJob)] ["j1"]) "j1").2 = true ∧
      (cleanup_job (cleanup_job (AppState.mk [("j1", cexJob)] ["j1"]) "j1").1 "j1").2 = false) :=
  ⟨by decide, cleanup_idempotent (AppState.mk [("j1", cexJob)] ["j1"]) "j1" (by decide)⟩

/-- Claim C4 evaluation: a job whose single file failed finishes in the
terminal status failed with its archive written and its zip path recorded,
yet the aggregate download endpoint answers the 400 not-ready error reserved
for jobs that are still processing: the source compares the status against
complete only, so the archive of a failed job is unreachable. -/
theorem download_failed_job_not_ready :
    cexRunFail.job.status = .failed ∧
    truthyStr cexRunFail.job.zip_path = true ∧
    download_results [("j2", cexRunFail.job)] "j2" =
      .httpError 400 "Job is still processing" ∧
    ¬ ∃ p f, download_results [("j2", cexRunFail.job)] "j2" = .fileResponse p f := by
  refine ⟨by decide, by decide, by decide, ?_⟩
  rintro ⟨p, f, hpf⟩
  rw [show download_results [("j2", cexRunFail.job)] "j2" =
      .httpError 400 "Job is still processing" from by decide] at hpf
  exact DownloadOutcome.noConfusion hpf

/-- Claim C6 evaluation: when packaging raises, process_job has no handler:
the exception escapes the worker, the zip path is never recorded, no
packaging diagnostic is stored in the error field, and the job is left in the
non-terminal processing status forever, observable through a status poll. -/
theorem packaging_failure_leaves_processing :
    cexRunPackFail.escaped = some "boom" ∧
    cexRunPackFail.job.status = .processing ∧
    cexRunPackFail.job.zip_path = none ∧
    cexRunPackFail.job.error = none ∧
    cexRunPackFail.job.status ≠ .failed ∧
    queue_status [("j1", cexRunPackFail.job)] "j1" =
      .ok ⟨"j1", .processing,
           [⟨0, "a.docx", .complete, some "/queue/j1/files/0"⟩], false, none⟩ := by
  decide

/-- Claim C2 counterexample: a one-file job, registered exactly as proofread
creates it, whose file fails with an exception whose str is empty. The task
ends in status error, the recorded error string is empty and therefore falsy,
and the final job status is complete, not failed, refuting the claimed
equivalence between failed and the existence of a task that ended in error. -/
theorem final_status_counterexample :
    lookupJob (proofread [] "j1" "academic" (some "key") ["a.docx"]).1 "j1" = some cexJob ∧
    cexRunEmptyMsg.job.files.map (fun fe => fe.status) = [.error] ∧
    cexRunEmptyMsg.job.status = .complete ∧
    cexRunEmptyMsg.job.status ≠ .failed := by
  decide

lemma processFile_results (jobId : String) (idx : Nat) (name : String)
    (oc : FileOutcome) (job : Job) :
    (processFile jobId idx name oc job).2.1 = resultsOf name oc := by
  cases oc <;> rfl

lemma processFile_trace (jobId : String) (idx : Nat) (name : String)
    (oc : FileOutcome) (job : Job) :
    (processFile jobId idx name oc job).2.2 = [(idx, .processing), (idx, terminalOf oc)] := by
  cases oc <;> rfl

lemma processFile_error (jobId : String) (idx : Nat) (name : String)
    (oc : FileOutcome) (job : Job) :
    (processFile jobId idx name oc job).1.error =
      (match outcomeErr oc with | some e => some e | none => job.error) := by
  cases oc <;> rfl

lemma processFile_length (jobId : String) (idx : Nat) (name : String)
    (oc : FileOutcome) (job : Job) :
    ((processFile jobId idx name oc job).1.files).length = job.files.length := by
  cases oc <;> simp [processFile]

lemma processFile_getElem_ne (jobId : String) (idx j : Nat) (name : String)
    (oc : FileOutcome) (job : Job) (h : idx ≠ j) :
    ((processFile jobId idx name oc job).1.files)[j]? = job.files[j]? := by
  cases oc <;> simp [processFile, List.getElem?_set_ne h]

lemma processFile_status_self (jobId : String) (idx : Nat) (name : String)
    (oc : FileOutcome) (job : Job) (h : idx < job.files.length) :
    (((processFile jobId idx name oc job).1.files)[idx]?).map (fun fe => fe.status) =
      some (terminalOf oc) := by
  cases oc <;> simp [processFile, List.getElem?_set_self, h, terminalOf]

lemma runFiles_results (jobId : String) :
    ∀ (inputs : List (Nat × String × FileOutcome)) (job : Job),
    (runFiles jobId inputs job).2.1 = inputs.flatMap fun t => resultsOf t.2.1 t.2.2 := by
  intro inputs
  induction inputs with
  | nil => intro job; rfl
  | cons t rest ih =>
      intro job
      obtain ⟨idx, name, oc⟩ := t
      simp [runFiles, ih, processFile_results]

lemma runFiles_trace (jobId : String) :
    ∀ (inputs : List (Nat × String × FileOutcome)) (job : Job),
    (runFiles jobId inputs job).2.2 =
      inputs.flatMap fun t => [(t.1, .processing), (t.1, terminalOf t.2.2)] := by
  intro inputs
  induction inputs with
  | nil => intro job; rfl
  | cons t rest ih =>
      intro job
      obtain ⟨idx, name, oc⟩ := t
      simp [runFiles, ih, processFile_trace]

lemma runFiles_error (jobId : String) :
    ∀ (inputs : List (Nat × String × FileOutcome)) (job : Job),
    (runFiles jobId inputs job).1.error = errFold job.error (inputs.map fun t => t.2.2) := by
  intro inputs
  induction inputs with
  | nil => intro job; rfl
  | cons t rest ih =>
      intro job
      obtain ⟨idx, name, oc⟩ := t
      cases oc <;> simp [runFiles, ih, processFile, errFold, outcomeErr]

lemma runFiles_length (jobId : String) :
    ∀ (inputs : List (Nat × String × FileOutcome)) (job : Job),
    ((runFiles jobId inputs job).1.files).length = job.files.length := by
  intro inputs
  induction inputs with
  | nil => intro job; rfl
  | cons t rest ih =>
      intro job
      obtain ⟨idx, name, oc⟩ := t
      show ((runFiles jobId rest (processFile jobId idx name oc job).1).1.files).length = _
      rw [ih, processFile_length]

lemma runFiles_getElem_untouched (jobId : String) (j : Nat) :
    ∀ (inputs : List (Nat × String × FileOutcome)) (job : Job),
    (∀ t ∈ inputs, t.1 ≠ j) →
    ((runFiles jobId inputs job).1.files)[j]? = job.files[j]? := by
  intro inputs
  induction inputs with
  | nil => intro job _; rfl
  | cons t rest ih =>
      intro job hall
      obtain ⟨idx, name, oc⟩ := t
      have h1 : idx ≠ j := hall (idx, name, oc) (by simp)
      have h2 : ∀ t2 ∈ rest, t2.1 ≠ j := fun t2 ht2 => hall t2 (by simp [ht2])
      show ((runFiles jobId rest (processFile jobId idx name oc job).1).1.files)[j]? = _
      rw [ih _ h2, processFile_getElem_ne jobId idx j name oc job h1]

lemma enumFrom2_ge : ∀ (ns : List String) (os : List FileOutcome) (k : Nat),
    ∀ t ∈ enumFrom2 k ns os, k ≤ t.1 := by
  intro ns
  induction ns with
  | nil => intro os k t ht; simp [enumFrom2] at ht
  | cons n ns ih =>
      intro os k t ht
      cases os with
      | nil => simp [enumFrom2] at ht
      | cons oc os =>
          simp only [enumFrom2, List.mem_cons] at ht
          rcases ht with h | h
          · simp [h]
          · exact Nat.le_of_succ_le (ih os (k + 1) t h)

lemma enumFrom2_map_oc : ∀ (ns : List String) (os : List FileOutcome) (k : Nat),
    ns.length = os.length → (enumFrom2 k ns os).map (fun t => t.2.2) = os := by
  intro ns
  induction ns with
  | nil =>
      intro os k h
      cases os with
      | nil => rfl
      | cons _ _ => simp at h
  | cons n ns ih =>
      intro os k h
      cases os with
      | nil => simp at h
      | cons oc os => simp [enumFrom2, ih os (k + 1) (by simpa using h)]

lemma enumFrom2_name_mem : ∀ (ns : List String) (os : List FileOutcome) (k : Nat)
    (t : Nat × String × FileOutcome), t ∈ enumFrom2 k ns os → t.2.1 ∈ ns := by
  intro ns
  induction ns with
  | nil => intro os k t ht; simp [enumFrom2] at ht
  | cons n ns ih =>
      intro os k t ht
      cases os with
      | nil => simp [enumFrom2] at ht
      | cons oc os =>
          simp only [enumFrom2, List.mem_cons] at ht
          rcases ht with h | h
          · simp [h]
          · exact List.mem_cons_of_mem n (ih os (k + 1) t h)

lemma mem_enumFrom2 : ∀ (ns : List String) (os : List FileOutcome) (i k : Nat)
    (n : String) (oc : FileOutcome),
    ns[i]? = some n → os[i]? = some oc → (k + i, n, oc) ∈ enumFrom2 k ns os := by
  intro ns
  induction ns with
  | nil => intro os i k n oc hn; simp at hn
  | cons hd tl ih =>
      intro os i k n oc hn ho
      cases os with
      | nil => simp at ho
      | cons oh ot =>
          cases i with
          | zero =>
              have hhd : hd = n := by simpa using hn
              have hoh : oh = oc := by simpa using ho
              simp [enumFrom2, hhd, hoh]
          | succ i2 =>
              have hmem := ih ot i2 (k + 1) n oc (by simpa using hn) (by simpa using ho)
              have hk : k + (i2 + 1) = (k + 1) + i2 := by omega
              rw [hk]
              exact List.mem_cons_of_mem (k, hd, oh) hmem

lemma runFiles_status_at (jobId : String) : ∀ (ns : List String) (os : List FileOutcome)
    (k i : Nat) (n : String) (oc : FileOutcome) (job : Job),
    ns[i]? = some n → os[i]? = some oc → k + i < job.files.length →
    (((runFiles jobId (enumFrom2 k ns os) job).1.files)[k + i]?).map (fun fe => fe.status) =
      some (terminalOf oc) := by
  intro ns
  induction ns with
  | nil => intro os k i n oc job hn; simp at hn
  | cons hd tl ih =>
      intro os k i n oc job hn ho hlt
      cases os with
      | nil => simp at ho
      | cons oh ot =>
          cases i with
          | zero =>
              have hoh : oh = oc := by simpa using ho
              rw [Nat.add_zero] at hlt ⊢
              have htail : ∀ t ∈ enumFrom2 (k + 1) tl ot, t.1 ≠ k := by
                intro t ht
                have := enumFrom2_ge tl ot (k + 1) t ht
                omega
              have hstep : ((runFiles jobId (enumFrom2 k (hd :: tl) (oh :: ot)) job).1.files)[k]? =
                  ((processFile jobId k hd oh job).1.files)[k]? := by
                show ((runFiles jobId (enumFrom2 (k + 1) tl ot)
                    (processFile jobId k hd oh job).1).1.files)[k]? = _
                exact runFiles_getElem_untouched jobId k (enumFrom2 (k + 1) tl ot) _ htail
              rw [hstep, processFile_status_self jobId k hd oh job hlt, hoh]
          | succ i2 =>
              have happ := ih ot (k + 1) i2 n oc (processFile jobId k hd oh job).1
                (by simpa using hn) (by simpa using ho)
                (by rw [processFile_length]; omega)
              have hk : k + (i2 + 1) = (k + 1) + i2 := by omega
              rw [hk]
              exact happ

lemma trace_filter_high : ∀ (ns : List String) (os : List FileOutcome) (k j : Nat), j < k →
    (((enumFrom2 k ns os).flatMap fun t =>
        [(t.1, TaskStatus.processing), (t.1, terminalOf t.2.2)]).filter fun p => p.1 == j) = [] := by
  intro ns
  induction ns with
  | nil => intro os k j h; cases os <;> rfl
  | cons hd tl ih =>
      intro os k j h
      cases os with
      | nil => rfl
      | cons oh ot =>
          have hb : (k == j) = false := by
            rw [beq_eq_false_iff_ne]
            omega
          simp [enumFrom2, List.filter_cons, hb, ih ot (k + 1) j (by omega)]

lemma trace_filter_at : ∀ (ns : List String) (os : List FileOutcome) (i k : Nat)
    (n : String) (oc : FileOutcome),
    ns[i]? = some n → os[i]? = some oc →
    (((enumFrom2 k ns os).flatMap fun t =>
        [(t.1, TaskStatus.processing), (t.1, terminalOf t.2.2)]).filter fun p => p.1 == (k + i)) =
      [(k + i, TaskStatus.processing), (k + i, terminalOf oc)] := by
  intro ns
  induction ns with
  | nil => intro os i k n oc hn; simp at hn
  | cons hd tl ih =>
      intro os i k n oc hn ho
      cases os with
      | nil => simp at ho
      | cons oh ot =>
          cases i with
          | zero =>
              have hoh : oh = oc := by simpa using ho
              rw [Nat.add_zero]
              have hhigh := trace_filter_high tl ot (k + 1) k (by omega)
              show List.filter (fun p => p.1 == k)
                  (((k, hd, oh) :: enumFrom2 (k + 1) tl ot).flatMap fun t =>
                    [(t.1, TaskStatus.processing), (t.1, terminalOf t.2.2)]) =
                [(k, TaskStatus.processing), (k, terminalOf oc)]
              rw [List.flatMap_cons, List.filter_append, hhigh, List.append_nil]
              simp [List.filter_cons, hoh]
          | succ i2 =>
              have hb : (k == k + (i2 + 1)) = false := by
                rw [beq_eq_false_iff_ne]
                omega
              have happ := ih ot i2 (k + 1) n oc (by simpa using hn) (by simpa using ho)
              have hk : k + (i2 + 1) = (k + 1) + i2 := by omega
              rw [hk]
              rw [hk] at hb
              show List.filter (fun p => p.1 == (k + 1) + i2)
                  (((k, hd, oh) :: enumFrom2 (k + 1) tl ot).flatMap fun t =>
                    [(t.1, TaskStatus.processing), (t.1, terminalOf t.2.2)]) =
                [((k + 1) + i2, TaskStatus.processing), ((k + 1) + i2, terminalOf oc)]
              rw [List.flatMap_cons, List.filter_append]
              have hhead : List.filter (fun p => p.1 == (k + 1) + i2)
                  [(k, TaskStatus.processing), (k, terminalOf oh)] = [] := by
                simp [List.filter_cons, hb]
              rw [hhead, List.nil_append, happ]

lemma process_job_trace (jobId : String) (names : List String) (ocs : List FileOutcome)
    (pack : Except String Unit) (job0 : Job) :
    (process_job jobId names ocs pack job0).trace =
      (enumFiles names ocs).flatMap fun t => [(t.1, .processing), (t.1, terminalOf t.2.2)] := by
  cases pack <;> simp [process_job, runFiles_trace]

lemma process_job_files (jobId : String) (names : List String) (ocs : List FileOutcome)
    (pack : Except String Unit) (job0 : Job) :
    (process_job jobId names ocs pack job0).job.files =
      (runFiles jobId (enumFiles names ocs) { job0 with status := .processing }).1.files := by
  cases pack <;> rfl

lemma process_job_results (jobId : String) (names : List String) (ocs : List FileOutcome)
    (pack : Except String Unit) (job0 : Job) :
    (process_job jobId names ocs pack job0).results =
      (enumFiles names ocs).flatMap fun t => resultsOf t.2.1 t.2.2 := by
  cases pack <;> simp [process_job, runFiles_results]

lemma process_job_error_field (jobId : String) (names : List String) (ocs : List FileOutcome)
    (pack : Except String Unit) (job0 : Job) :
    (process_job jobId names ocs pack job0).job.error =
      errFold job0.error ((enumFiles names ocs).map fun t => t.2.2) := by
  cases pack <;> simp [process_job, runFiles_error]

lemma process_job_error_ocs (jobId : String) (names : List String) (ocs : List FileOutcome)
    (pack : Except String Unit) (job0 : Job) (hlen : names.length = ocs.length) :
    (process_job jobId names ocs pack job0).job.error = errFold job0.error ocs := by
  rw [process_job_error_field]
  unfold enumFiles
  rw [enumFrom2_map_oc names ocs 0 hlen]

lemma errFold_isSome_mono : ∀ (ocs : List FileOutcome) (init : Option String),
    init.isSome = true → (errFold init ocs).isSome = true := by
  intro ocs
  induction ocs with
  | nil => intro init h; exact h
  | cons oc os ih =>
      intro init h
      simp only [errFold, List.foldl_cons] at ih ⊢
      cases hoc : outcomeErr oc
      · exact ih init h
      · exact ih _ rfl

lemma errFold_isSome_of_mem : ∀ (ocs : List FileOutcome) (init : Option String)
    (oc : FileOutcome) (e : String),
    oc ∈ ocs → outcomeErr oc = some e → (errFold init ocs).isSome = true := by
  intro ocs
  induction ocs with
  | nil => intro _ _ _ hmem _; simp at hmem
  | cons oc2 os ih =>
      intro init oc e hmem hoc
      rcases List.mem_cons.mp hmem with h | h
      · subst h
        have hstep : errFold init (oc :: os) = errFold (some e) os := by
          show errFold (match outcomeErr oc with | some e2 => some e2 | none => init) os =
            errFold (some e) os
          rw [hoc]
        rw [hstep]
        exact errFold_isSome_mono os (some e) rfl
      · have hstep : errFold init (oc2 :: os) =
            errFold (match outcomeErr oc2 with | some e2 => some e2 | none => init) os := rfl
        rw [hstep]
        exact ih _ oc e h hoc

lemma resultsOf_filename (rp : ResultPayload) (n : String) (oc : FileOutcome)
    (h : rp ∈ resultsOf n oc) : rp.filename = n := by
  cases oc with
  | ok c d =>
      simp only [resultsOf, List.mem_singleton] at h
      subst h
      rfl
  | okThenSaveFail c d e =>
      simp only [resultsOf, List.mem_cons, List.mem_singleton, List.not_mem_nil, or_false] at h
      rcases h with h | h <;> subst h <;> rfl
  | fail e =>
      simp only [resultsOf, List.mem_singleton] at h
      subst h
      rfl

lemma resultsOf_self_mem (n : String) (oc : FileOutcome) :
    ∃ rp ∈ resultsOf n oc, rp.filename = n := by
  cases oc with
  | ok c d => exact ⟨⟨n, c, d⟩, by simp [resultsOf], rfl⟩
  | okThenSaveFail c d e => exact ⟨⟨n, c, d⟩, by simp [resultsOf], rfl⟩
  | fail e => exact ⟨fallbackPayload n e, by simp [resultsOf], rfl⟩

lemma fallback_mem_resultsOf (n e : String) (oc : FileOutcome)
    (he : outcomeErr oc = some e) : fallbackPayload n e ∈ resultsOf n oc := by
  cases oc with
  | ok c d => simp [outcomeErr] at he
  | okThenSaveFail c d e2 =>
      have h2 : e2 = e := by simpa [outcomeErr] using he
      subst h2
      simp [resultsOf]
  | fail e2 =>
      have h2 : e2 = e := by simpa [outcomeErr] using he
      subst h2
      simp [resultsOf]

lemma singleSaveNames_sub (ns : List String) (os : List FileOutcome) (k : Nat) (x : String)
    (hx : x ∈ singleSaveNames (enumFrom2 k ns os)) : ∃ n ∈ ns, x = perFileName n := by
  unfold singleSaveNames at hx
  obtain ⟨t, ht, hft⟩ := List.mem_filterMap.mp hx
  cases hoc : t.2.2 with
  | ok c d =>
      rw [hoc] at hft
      exact ⟨t.2.1, enumFrom2_name_mem ns os k t ht, (Option.some.inj hft).symm⟩
  | okThenSaveFail c d e =>
      rw [hoc] at hft
      exact absurd hft (by simp)
  | fail e =>
      rw [hoc] at hft
      exact absurd hft (by simp)

lemma results_perFile_toFinset (jobId : String) (names : List String)
    (ocs : List FileOutcome) (pack : Except String Unit) (job0 : Job)
    (hlen : names.length = ocs.length) :
    (((process_job jobId names ocs pack job0).results).map
        fun r => perFileName r.filename).toFinset =
      (names.map perFileName).toFinset := by
  ext x
  simp only [List.mem_toFinset, List.mem_map]
  constructor
  · rintro ⟨r, hr, rfl⟩
    rw [process_job_results] at hr
    obtain ⟨t, ht, hrt⟩ := List.mem_flatMap.mp hr
    have hname := resultsOf_filename r t.2.1 t.2.2 hrt
    refine ⟨r.filename, ?_, rfl⟩
    rw [hname]
    exact enumFrom2_name_mem names ocs 0 t ht
  · rintro ⟨n, hn, rfl⟩
    obtain ⟨i, hni⟩ := List.mem_iff_getElem?.mp hn
    have hi : i < names.length := (List.getElem?_eq_some.mp hni).1
    have hoi : i < ocs.length := by omega
    have hoc2 : ocs[i]? = some (ocs.get ⟨i, hoi⟩) := by
      rw [List.getElem?_eq_getElem hoi]
      rfl
    obtain ⟨rp, hrp, hrpn⟩ := resultsOf_self_mem n (ocs.get ⟨i, hoi⟩)
    refine ⟨rp, ?_, by rw [hrpn]⟩
    rw [process_job_results]
    exact List.mem_flatMap.mpr
      ⟨(i, n, ocs.get ⟨i, hoi⟩),
       by simpa [enumFiles] using mem_enumFrom2 names ocs i 0 n (ocs.get ⟨i, hoi⟩) hni hoc2,
       hrp⟩

lemma docxEntries_map_name (paths : List String) :
    (docxEntries paths).map (fun fe => fe.name) = paths := by
  unfold docxEntries mkFileEntry
  rw [List.map_map]
  show paths.enum.map Prod.snd = paths
  exact List.enum_map_snd paths

lemma docxEntries_map_id (paths : List String) :
    (docxEntries paths).map (fun fe => fe.id) = List.range paths.length := by
  unfold docxEntries mkFileEntry
  rw [List.map_map]
  show paths.enum.map Prod.fst = List.range paths.length
  exact List.enum_map_fst paths

lemma docxEntries_map_status (paths : List String) :
    (docxEntries paths).map (fun fe => fe.status) =
      List.replicate paths.length .queued := by
  refine List.eq_replicate_iff.mpr ⟨?_, ?_⟩
  · simp [docxEntries, List.enum_length]
  · intro b hb
    simp only [docxEntries, mkFileEntry, List.map_map, List.mem_map] at hb
    obtain ⟨p, _, hp⟩ := hb
    exact hp.symm

lemma docxEntries_length (paths : List String) :
    (docxEntries paths).length = paths.length := by
  simp [docxEntries, List.enum_length]

lemma serialize_map_name (job : Job) :
    (serialize_job_files job).map (fun sf => sf.name) = job.files.map (fun fe => fe.name) := by
  unfold serialize_job_files
  rw [List.map_map]
  rfl

lemma serialize_map_id (job : Job) :
    (serialize_job_files job).map (fun sf => sf.id) = job.files.map (fun fe => fe.id) := by
  unfold serialize_job_files
  rw [List.map_map]
  rfl

lemma serialize_map_status (job : Job) :
    (serialize_job_files job).map (fun sf => sf.status) =
      job.files.map (fun fe => fe.status) := by
  unfold serialize_job_files
  rw [List.map_map]
  rfl

/-- Claim C9: for every task of every job, the sequence of status writes the
pipeline makes to that task is exactly processing followed by one terminal
status, so the observed status sequence, starting from the initial queued
state, is a chain of the spec state machine queued to processing to complete
or error, and no write ever follows a terminal status. -/
theorem task_status_monotonic (jobId : String) (names : List String)
    (ocs : List FileOutcome) (pack : Except String Unit) (job0 : Job)
    (i : Nat) (n : String) (oc : FileOutcome)
    (hn : names[i]? = some n) (ho : ocs[i]? = some oc) :
    statusWrites (process_job jobId names ocs pack job0).trace i =
      [TaskStatus.processing, terminalOf oc] ∧
    List.Chain taskStep TaskStatus.queued
      (statusWrites (process_job jobId names ocs pack job0).trace i) ∧
    (terminalOf oc = .complete ∨ terminalOf oc = .error) := by
  have hw : statusWrites (process_job jobId names ocs pack job0).trace i =
      [TaskStatus.processing, terminalOf oc] := by
    unfold statusWrites
    rw [process_job_trace]
    unfold enumFiles
    have hfa := trace_filter_at names ocs i 0 n oc hn ho
    rw [Nat.zero_add] at hfa
    rw [hfa]
    rfl
  refine ⟨hw, ?_, ?_⟩
  · rw [hw]
    cases oc <;> exact List.Chain.cons trivial (List.Chain.cons trivial List.Chain.nil)
  · cases oc <;> simp [terminalOf]

/-- Witness for claim C9: second task of a two-file batch whose second file
fails. -/
theorem task_status_monotonic_witness :
    ((["a.docx", "b.docx"] : List String)[1]? = some "b.docx" ∧
      ([FileOutcome.ok 3 ⟨"s", []⟩, FileOutcome.fail "x"] : List FileOutcome)[1]? =
        some (FileOutcome.fail "x")) ∧
    (statusWrites (process_job "j1" ["a.docx", "b.docx"]
        [FileOutcome.ok 3 ⟨"s", []⟩, FileOutcome.fail "x"] (Except.ok ()) cexJob).trace 1 =
      [TaskStatus.processing, terminalOf (FileOutcome.fail "x")] ∧
    List.Chain taskStep TaskStatus.queued
      (statusWrites (process_job "j1" ["a.docx", "b.docx"]
        [FileOutcome.ok 3 ⟨"s", []⟩, FileOutcome.fail "x"] (Except.ok ()) cexJob).trace 1) ∧
    (terminalOf (FileOutcome.fail "x") = .complete ∨
      terminalOf (FileOutcome.fail "x") = .error)) :=
  ⟨⟨rfl, rfl⟩,
   task_status_monotonic "j1" ["a.docx", "b.docx"]
     [FileOutcome.ok 3 ⟨"s", []⟩, FileOutcome.fail "x"] (Except.ok ()) cexJob
     1 "b.docx" (FileOutcome.fail "x") rfl rfl⟩

/-- Claim C2 as amended: for a pipeline that runs to completion on a job
created with no prior error, the final job status is failed if and only if
the error text recorded on the job, which is the str of the exception of the
last failing task, is non-empty. The source decides the terminal status by
Python truthiness of the error string, so a task can end in error while the
job ends complete when that str is empty. -/
theorem final_status_iff_recorded_error (jobId : String) (names : List String)
    (ocs : List FileOutcome) (job0 : Job)
    (hlen : names.length = ocs.length) (herr : job0.error = none) :
    ((process_job jobId names ocs (Except.ok ()) job0).job.status = .failed ↔
      ∃ e, lastError ocs = some e ∧ e ≠ "") := by
  have hst : (process_job jobId names ocs (Except.ok ()) job0).job.status =
      (if truthyStr ((runFiles jobId (enumFiles names ocs)
          { job0 with status := .processing }).1.error)
        then JobStatus.failed else JobStatus.complete) := rfl
  have herr2 : (runFiles jobId (enumFiles names ocs)
      { job0 with status := .processing }).1.error = lastError ocs := by
    rw [runFiles_error]
    have hje : ({ job0 with status := JobStatus.processing } : Job).error = none := herr
    rw [hje]
    unfold enumFiles
    rw [enumFrom2_map_oc names ocs 0 hlen]
    rfl
  rw [hst, herr2]
  rcases hle : lastError ocs with _ | e
  · simp [truthyStr]
  · by_cases he : e = ""
    · subst he
      simp [truthyStr]
    · simp [truthyStr, he]

/-- Witness for amended claim C2: a one-file job whose file fails with the
non-empty exception text boom ends failed. -/
theorem final_status_iff_recorded_error_witness :
    ((["a.docx"] : List String).length = ([FileOutcome.fail "boom"] : List FileOutcome).length ∧
      cexJob.error = none) ∧
    ((process_job "j2" ["a.docx"] [FileOutcome.fail "boom"] (Except.ok ()) cexJob).job.status =
        .failed ↔
      ∃ e, lastError [FileOutcome.fail "boom"] = some e ∧ e ≠ "") :=
  ⟨⟨rfl, rfl⟩,
   final_status_iff_recorded_error "j2" ["a.docx"] [FileOutcome.fail "boom"] cexJob rfl rfl⟩

/-- Claim C3: when the processing of one file fails, the pipeline marks that
task error, appends the synthesized fallback payload for it to the results
used for packaging, records an error text on the job, and still drives every
task of the batch, before and after the failing one, to the terminal status
its own outcome dictates, each contributing a result payload: one failing
file never prevents the remaining files from being processed. -/
theorem per_file_failure_isolated (jobId : String) (names : List String)
    (ocs : List FileOutcome) (pack : Except String Unit) (job0 : Job)
    (i : Nat) (n : String) (oc : FileOutcome) (e : String)
    (hlen : names.length = ocs.length)
    (hfl : job0.files.length = names.length)
    (hn : names[i]? = some n) (ho : ocs[i]? = some oc)
    (he : outcomeErr oc = some e) :
    ((((process_job jobId names ocs pack job0).job.files)[i]?).map
        (fun fe => fe.status) = some .error) ∧
    fallbackPayload n e ∈ (process_job jobId names ocs pack job0).results ∧
    (process_job jobId names ocs pack job0).job.error.isSome = true ∧
    (∀ (j : Nat) (m : String) (oc2 : FileOutcome), names[j]? = some m → ocs[j]? = some oc2 →
      (((process_job jobId names ocs pack job0).job.files)[j]?).map
          (fun fe => fe.status) = some (terminalOf oc2)) ∧
    (∀ (j : Nat) (m : String) (oc2 : FileOutcome), names[j]? = some m → ocs[j]? = some oc2 →
      ∃ rp ∈ (process_job jobId names ocs pack job0).results, rp.filename = m) := by
  have hterm : ∀ (j : Nat) (m : String) (oc2 : FileOutcome), names[j]? = some m → ocs[j]? = some oc2 →
      (((process_job jobId names ocs pack job0).job.files)[j]?).map
        (fun fe => fe.status) = some (terminalOf oc2) := by
    intro j m oc2 hm ho2
    rw [process_job_files]
    have hj : j < names.length := (List.getElem?_eq_some.mp hm).1
    have hlt : 0 + j < ({ job0 with status := JobStatus.processing } : Job).files.length := by
      have : ({ job0 with status := JobStatus.processing } : Job).files.length =
          job0.files.length := rfl
      omega
    have := runFiles_status_at jobId names ocs 0 j m oc2
      { job0 with status := .processing } hm ho2 hlt
    rw [Nat.zero_add] at this
    unfold enumFiles
    exact this
  refine ⟨?_, ?_, ?_, hterm, ?_⟩
  · have hoc : terminalOf oc = .error := by
      cases oc with
      | ok c d => simp [outcomeErr] at he
      | okThenSaveFail c d e2 => rfl
      | fail e2 => rfl
    rw [hterm i n oc hn ho, hoc]
  · rw [process_job_results]
    refine List.mem_flatMap.mpr ⟨(i, n, oc), ?_, fallback_mem_resultsOf n e oc he⟩
    have := mem_enumFrom2 names ocs i 0 n oc hn ho
    simpa [enumFiles] using this
  · rw [process_job_error_ocs jobId names ocs pack job0 hlen]
    have hocm : oc ∈ ocs := List.mem_iff_getElem?.mpr ⟨i, ho⟩
    exact errFold_isSome_of_mem ocs job0.error oc e hocm he
  · intro j m oc2 hm ho2
    rw [process_job_results]
    obtain ⟨rp, hrp, hname⟩ := resultsOf_self_mem m oc2
    refine ⟨rp, List.mem_flatMap.mpr ⟨(j, m, oc2), ?_, hrp⟩, hname⟩
    have := mem_enumFrom2 names ocs j 0 m oc2 hm ho2
    simpa [enumFiles] using this

/-- Witness for claim C3: the middle file of a three-file batch fails with
the exception text boom while both neighbours succeed. -/
theorem per_file_failure_isolated_witness :
    (cexNames3.length = cexOcs3.length ∧ cexJob3.files.length = cexNames3.length ∧
      cexNames3[1]? = some "b.docx" ∧ cexOcs3[1]? = some (FileOutcome.fail "boom") ∧
      outcomeErr (FileOutcome.fail "boom") = some "boom") ∧
    (((((process_job "j3" cexNames3 cexOcs3 (Except.ok ()) cexJob3).job.files)[1]?).map
        (fun fe => fe.status) = some .error) ∧
    fallbackPayload "b.docx" "boom" ∈
      (process_job "j3" cexNames3 cexOcs3 (Except.ok ()) cexJob3).results ∧
    (process_job "j3" cexNames3 cexOcs3 (Except.ok ()) cexJob3).job.error.isSome = true ∧
    (∀ (j : Nat) (m : String) (oc2 : FileOutcome), cexNames3[j]? = some m → cexOcs3[j]? = some oc2 →
      (((process_job "j3" cexNames3 cexOcs3 (Except.ok ()) cexJob3).job.files)[j]?).map
          (fun fe => fe.status) = some (terminalOf oc2)) ∧
    (∀ (j : Nat) (m : String) (oc2 : FileOutcome), cexNames3[j]? = some m → cexOcs3[j]? = some oc2 →
      ∃ rp ∈ (process_job "j3" cexNames3 cexOcs3 (Except.ok ()) cexJob3).results,
        rp.filename = m)) :=
  ⟨⟨rfl, rfl, rfl, rfl, rfl⟩,
   per_file_failure_isolated "j3" cexNames3 cexOcs3 (Except.ok ()) cexJob3
     1 "b.docx" (FileOutcome.fail "boom") "boom" rfl rfl rfl rfl rfl⟩

/-- Claim C5 counterexample: the three-file batch of the spec scenario, with
file two failing. Every task reaches a terminal status and the job ends
failed, but the produced archive holds six entries, not four: one per-file
report for each of the three tasks plus the three aggregate outputs that
save_reports writes (results.json, summary.csv and the master report). -/
theorem archive_count_counterexample :
    (process_job "j3" cexNames3 cexOcs3 (Except.ok ()) cexJob3).job.files.map
        (fun fe => fe.status) = [.complete, .error, .complete] ∧
    (process_job "j3" cexNames3 cexOcs3 (Except.ok ()) cexJob3).job.status = .failed ∧
    cexArchive3.card = 6 ∧
    cexArchive3.card ≠ 4 := by
  decide

/-- Claim C5 as amended: for every job that reaches packaging, whatever the
outcomes, every task reaches complete or error and the archive holds exactly
one per-file artifact for each task plus the aggregate report, which the
source materializes as three aggregate files; in total the archive has the
number of tasks plus three entries. The hypotheses rule out colliding report
names, which hold for ordinary distinct .docx uploads. -/
theorem archive_one_artifact_per_task (jobId : String) (names : List String)
    (ocs : List FileOutcome) (job0 : Job)
    (hlen : names.length = ocs.length)
    (hnd : (names.map perFileName).Nodup)
    (hdisj : ∀ n ∈ names, perFileName n ∉ aggregateNames) :
    (archiveOf jobId names ocs job0).card = names.length + 3 ∧
    (∀ n ∈ names, perFileName n ∈ archiveOf jobId names ocs job0) ∧
    (∀ a ∈ aggregateNames, a ∈ archiveOf jobId names ocs job0) := by
  have hset : archiveOf jobId names ocs job0 =
      aggregateNames.toFinset ∪ (names.map perFileName).toFinset := by
    unfold archiveOf archiveEntries save_reports_names
    rw [List.toFinset_append, List.toFinset_append,
        results_perFile_toFinset jobId names ocs (Except.ok ()) job0 hlen]
    have hsub : (singleSaveNames (enumFiles names ocs)).toFinset ⊆
        (names.map perFileName).toFinset := by
      intro x hx
      rw [List.mem_toFinset] at hx
      obtain ⟨n, hn, hxn⟩ := singleSaveNames_sub names ocs 0 x hx
      rw [List.mem_toFinset, hxn]
      exact List.mem_map.mpr ⟨n, hn, rfl⟩
    exact Finset.union_eq_right.mpr (hsub.trans Finset.subset_union_right)
  have hdisjF : Disjoint aggregateNames.toFinset (names.map perFileName).toFinset := by
    rw [Finset.disjoint_left]
    intro a haG haP
    rw [List.mem_toFinset] at haG haP
    obtain ⟨n, hn, rfl⟩ := List.mem_map.mp haP
    exact hdisj n hn haG
  refine ⟨?_, ?_, ?_⟩
  · rw [hset, Finset.card_union_of_disjoint hdisjF,
        List.toFinset_card_of_nodup hnd, List.length_map]
    have h3 : aggregateNames.toFinset.card = 3 := by decide
    rw [h3]
    omega
  · intro n hn
    rw [hset]
    exact Finset.mem_union_right _ (List.mem_toFinset.mpr (List.mem_map.mpr ⟨n, hn, rfl⟩))
  · intro a ha
    rw [hset]
    exact Finset.mem_union_left _ (List.mem_toFinset.mpr ha)

/-- Witness for amended claim C5: a two-file batch whose first file fails. -/
theorem archive_one_artifact_per_task_witness :
    ((["a.docx", "b.docx"] : List String).length =
        ([FileOutcome.fail "x", FileOutcome.ok 1 ⟨"s", []⟩] : List FileOutcome).length ∧
      ((["a.docx", "b.docx"] : List String).map perFileName).Nodup ∧
      ∀ n ∈ (["a.docx", "b.docx"] : List String), perFileName n ∉ aggregateNames) ∧
    ((archiveOf "j9" ["a.docx", "b.docx"]
        [FileOutcome.fail "x", FileOutcome.ok 1 ⟨"s", []⟩] cexJob).card =
        (["a.docx", "b.docx"] : List String).length + 3 ∧
      (∀ n ∈ (["a.docx", "b.docx"] : List String),
        perFileName n ∈ archiveOf "j9" ["a.docx", "b.docx"]
          [FileOutcome.fail "x", FileOutcome.ok 1 ⟨"s", []⟩] cexJob) ∧
      (∀ a ∈ aggregateNames,
        a ∈ archiveOf "j9" ["a.docx", "b.docx"]
          [FileOutcome.fail "x", FileOutcome.ok 1 ⟨"s", []⟩] cexJob)) :=
  ⟨⟨by decide, by decide, by decide⟩,
   archive_one_artifact_per_task "j9" ["a.docx", "b.docx"]
     [FileOutcome.fail "x", FileOutcome.ok 1 ⟨"s", []⟩] cexJob
     (by decide) (by decide) (by decide)⟩

/-- Claim C7: submitting a batch of valid .docx files under a valid role with
an API key configured registers a fresh queued job and returns its id with
exactly one task per file, in upload order, ids assigned in upload order,
every task queued and the job queued. -/
theorem submission_creates_tasks (jobs : List (String × Job)) (jobId role : String)
    (apiKey : Option String) (files : List String)
    (hrole : ROLES.contains role = true) (hkey : truthyStr apiKey = true)
    (hdocx : ∀ f ∈ files, isDocx f = true) (hne : files ≠ [])
    (hfresh : lookupJob jobs jobId = none) :
    ∃ job resp,
      proofread jobs jobId role apiKey files = ((jobId, job) :: jobs, Except.ok resp) ∧
      resp.job_id = jobId ∧
      resp.status = .queued ∧
      resp.files.map (fun sf => sf.name) = files ∧
      resp.files.map (fun sf => sf.id) = List.range files.length ∧
      resp.files.map (fun sf => sf.status) = List.replicate files.length .queued ∧
      job.status = .queued ∧
      job.files.length = files.length ∧
      lookupJob ((jobId, job) :: jobs) jobId = some job := by
  have hfilter : files.filter isDocx = files := List.filter_eq_self.mpr hdocx
  have hempty : files.isEmpty = false := by simp [List.isEmpty_iff, hne]
  have hpf : proofread jobs jobId role apiKey files =
      ((jobId, ⟨.queued, docxEntries files, none, none, role⟩) :: jobs,
       Except.ok ⟨jobId, .queued,
         serialize_job_files ⟨.queued, docxEntries files, none, none, role⟩⟩) := by
    unfold proofread
    rw [hrole, hkey, hfilter]
    simp [hempty]
  refine ⟨⟨.queued, docxEntries files, none, none, role⟩,
    ⟨jobId, .queued, serialize_job_files ⟨.queued, docxEntries files, none, none, role⟩⟩,
    hpf, rfl, rfl, ?_, ?_, ?_, rfl, ?_, ?_⟩
  · rw [serialize_map_name]
    exact docxEntries_map_name files
  · rw [serialize_map_id]
    exact docxEntries_map_id files
  · rw [serialize_map_status]
    exact docxEntries_map_status files
  · exact docxEntries_length files
  · simp [lookupJob, List.find?]

/-- Witness for claim C7: two valid uploads, one of them with an upper-case
extension, into an empty registry. -/
theorem submission_creates_tasks_witness :
    (ROLES.contains "legal" = true ∧ truthyStr (some "k") = true ∧
      (∀ f ∈ (["a.docx", "b.DOCX"] : List String), isDocx f = true) ∧
      (["a.docx", "b.DOCX"] : List String) ≠ [] ∧
      lookupJob [] "newjob" = none) ∧
    (∃ job resp,
      proofread [] "newjob" "legal" (some "k") ["a.docx", "b.DOCX"] =
        (("newjob", job) :: [], Except.ok resp) ∧
      resp.job_id = "newjob" ∧
      resp.status = .queued ∧
      resp.files.map (fun sf => sf.name) = ["a.docx", "b.DOCX"] ∧
      resp.files.map (fun sf => sf.id) =
        List.range (["a.docx", "b.DOCX"] : List String).length ∧
      resp.files.map (fun sf => sf.status) =
        List.replicate (["a.docx", "b.DOCX"] : List String).length .queued ∧
      job.status = .queued ∧
      job.files.length = (["a.docx", "b.DOCX"] : List String).length ∧
      lookupJob [("newjob", job)] "newjob" = some job) :=
  ⟨⟨by decide, by decide, by decide, by decide, rfl⟩,
   submission_creates_tasks [] "newjob" "legal" (some "k") ["a.docx", "b.DOCX"]
     (by decide) (by decide) (by decide) (by decide) rfl⟩

/-- Claim C10: uploads whose names do not end case-insensitively in .docx are
silently skipped: the job holds one task per kept .docx file, in relative
upload order, all queued, and no error mentions the skipped files; when no
.docx file remains, the submission is rejected with a 400 error and the
registry is left unchanged, so no job is created or registered. -/
theorem non_docx_skipped (jobs : List (String × Job)) (jobId role : String)
    (apiKey : Option String) (files : List String)
    (hrole : ROLES.contains role = true) (hkey : truthyStr apiKey = true) :
    (files.filter isDocx = [] →
      proofread jobs jobId role apiKey files =
        (jobs, Except.error (400, "No .docx files uploaded"))) ∧
    (files.filter isDocx ≠ [] →
      ∃ job, proofread jobs jobId role apiKey files =
          ((jobId, job) :: jobs, Except.ok ⟨jobId, .queued, serialize_job_files job⟩) ∧
        job.files.map (fun fe => fe.name) = files.filter isDocx ∧
        job.files.map (fun fe => fe.id) = List.range (files.filter isDocx).length ∧
        job.files.map (fun fe => fe.status) =
          List.replicate (files.filter isDocx).length .queued) := by
  constructor
  · intro h0
    unfold proofread
    rw [hrole, hkey, h0]
    simp
  · intro h1
    have hempty : (files.filter isDocx).isEmpty = false := by
      simp [List.isEmpty_iff, h1]
    refine ⟨⟨.queued, docxEntries (files.filter isDocx), none, none, role⟩, ?_, ?_, ?_, ?_⟩
    · unfold proofread
      rw [hrole, hkey]
      simp [hempty]
    · exact docxEntries_map_name (files.filter isDocx)
    · exact docxEntries_map_id (files.filter isDocx)
    · exact docxEntries_map_status (files.filter isDocx)

/-- Witness for claim C10: a mixed upload set where the .txt and .pdf files
are skipped and the two .docx files, one with an upper-case extension, are
kept in order. -/
theorem non_docx_skipped_witness :
    (ROLES.contains "academic" = true ∧ truthyStr (some "k") = true) ∧
    (((["a.docx", "b.txt", "C.DOCX", "d.pdf"] : List String).filter isDocx = [] →
      proofread [] "j7" "academic" (some "k") ["a.docx", "b.txt", "C.DOCX", "d.pdf"] =
        ([], Except.error (400, "No .docx files uploaded"))) ∧
    ((["a.docx", "b.txt", "C.DOCX", "d.pdf"] : List String).filter isDocx ≠ [] →
      ∃ job, proofread [] "j7" "academic" (some "k") ["a.docx", "b.txt", "C.DOCX", "d.pdf"] =
          (("j7", job) :: [], Except.ok ⟨"j7", .queued, serialize_job_files job⟩) ∧
        job.files.map (fun fe => fe.name) =
          (["a.docx", "b.txt", "C.DOCX", "d.pdf"] : List String).filter isDocx ∧
        job.files.map (fun fe => fe.id) =
          List.range ((["a.docx", "b.txt", "C.DOCX", "d.pdf"] : List String).filter isDocx).length ∧
        job.files.map (fun fe => fe.status) =
          List.replicate
            ((["a.docx", "b.txt", "C.DOCX", "d.pdf"] : List String).filter isDocx).length
            .queued)) :=
  ⟨⟨by decide, by decide⟩,
   non_docx_skipped [] "j7" "academic" (some "k") ["a.docx", "b.txt", "C.DOCX", "d.pdf"]
     (by decide) (by decide)⟩

end GrokApp
